import Mathlib

/-!
Shallow embedding of the PR-review CLI core
(`src/skills/pr-review/scripts/gh_pr.py`).

Strings are modelled as `List Char`.  Network transports, the JSON
decoder and the durable file store are modelled as explicit oracle
parameters; each operation returns, besides its outcome, the trace of
network calls it issued and the final state of the artifact file, so
that the spec's claims about side effects can be stated directly.
-/

namespace GhPr

/-- Python `s.split("/")` semantics on character lists: splitting on
every slash, keeping empty segments, and yielding `[[]]` on the empty
string (so the number of segments is always the slash count plus one). -/
def splitSlash : List Char → List (List Char)
  | [] => [[]]
  | c :: rest =>
    if c = '/' then [] :: splitSlash rest
    else
      match splitSlash rest with
      | [] => [[c]]
      | s :: ss => (c :: s) :: ss

/-- Embedding of `parse_repo` (gh_pr.py:52-58): split the input on
slashes; succeed with the two parts exactly when there are two of them,
otherwise report the invalid-format error (modelled as `none`). -/
def parse_repo (repo : List Char) : Option (List Char × List Char) :=
  match splitSlash repo with
  | [a, b] => some (a, b)
  | _ => none

/-- Python `str.isdigit` restricted to ASCII: true iff the string is
nonempty and every character is a decimal digit. -/
def isdigit (s : List Char) : Bool :=
  !s.isEmpty && s.all (fun c => c.isDigit)

/-- Python `int(s)` on a digit string: decimal value. -/
def strToNat (s : List Char) : Nat :=
  s.foldl (fun a c => a * 10 + (c.toNat - 48)) 0

/-- Literal path segment `pulls` as a character list. -/
def pullsSeg : List Char := ['p', 'u', 'l', 'l', 's']

/-- Model of `urlparse(url).path` for the URLs handled here: when the
string contains `://`, the path starts at the first slash after the
authority; otherwise the whole string is the path.  Query and fragment
components do not occur in the API URLs this code receives and are not
modelled. -/
def afterSchemeSep : List Char → Option (List Char)
  | [] => none
  | ':' :: '/' :: '/' :: rest => some rest
  | _ :: rest => afterSchemeSep rest

/-- Drop the authority component: everything before the first slash. -/
def dropAuthority : List Char → List Char
  | [] => []
  | c :: rest => if c = '/' then c :: rest else dropAuthority rest

/-- Path component of a URL string (see `afterSchemeSep`). -/
def urlPath (s : List Char) : List Char :=
  match afterSchemeSep s with
  | some rest => dropAuthority rest
  | none => s

/-- Non-empty slash-separated segments of a URL's path, as computed by
`[part for part in path.split("/") if part]` (gh_pr.py:85). -/
def urlParts (u : List Char) : List (List Char) :=
  (splitSlash (urlPath u)).filter (fun p => !p.isEmpty)

/-- Segment following the first occurrence of `pulls`, when both exist:
models `parts.index("pulls")` plus the `idx + 1 < len(parts)` guard
(gh_pr.py:86-88). -/
def afterPulls : List (List Char) → Option (List Char)
  | [] => none
  | p :: rest => if p = pullsSeg then rest.head? else afterPulls rest

/-- Fallback scan `for part in reversed(parts): if part.isdigit()`
(gh_pr.py:90-92): last purely-numeric segment, if any. -/
def lastDigitSeg (parts : List (List Char)) : Option (List Char) :=
  parts.reverse.find? (fun p => isdigit p)

/-- Segment-level core of `extract_pull_number_from_url`
(gh_pr.py:86-93): prefer the segment right after the first `pulls`
when it is numeric, else the last numeric segment anywhere, else none. -/
def extractFromParts (parts : List (List Char)) : Option Nat :=
  match afterPulls parts with
  | some nxt =>
    if isdigit nxt then some (strToNat nxt)
    else
      match lastDigitSeg parts with
      | some p => some (strToNat p)
      | none => none
  | none =>
    match lastDigitSeg parts with
    | some p => some (strToNat p)
    | none => none

/-- Embedding of `extract_pull_number_from_url` (gh_pr.py:80-93).
Python's `if not url` is falsy both for `None` and for the empty
string, hence the extra emptiness test. -/
def extract_pull_number_from_url (url : Option (List Char)) : Option Nat :=
  match url with
  | none => none
  | some u =>
    if u.isEmpty then none
    else extractFromParts (urlParts u)

/-- Review-comment record as read by the locator: only the two URL
fields are consulted (gh_pr.py:103-105); a missing JSON key is `none`. -/
structure ReviewComment where
  pull_request_url : Option (List Char)
  pull_request_review_url : Option (List Char)
deriving DecidableEq

/-- Python `a or b` on optional strings: the empty string is falsy, so
it also falls through to `b`. -/
def pyOrStr (a b : Option (List Char)) : Option (List Char) :=
  match a with
  | some s => if s.isEmpty then b else some s
  | none => b

/-- Error outcomes surfaced by the embedded operations (each models a
printed error followed by `typer.Exit(1)` in the script). -/
inductive CliError where
  | unresolvableReference
deriving DecidableEq

/-- Embedding of `get_pull_number_from_comment` (gh_pr.py:96-109); the
comment record itself is passed in (the REST fetch that obtains it is
the transport's concern).  Failure to extract a number is the
could-not-determine-PR error. -/
def get_pull_number_from_comment (c : ReviewComment) : Except CliError Nat :=
  match extract_pull_number_from_url
      (pyOrStr c.pull_request_url c.pull_request_review_url) with
  | some n => Except.ok n
  | none => Except.error CliError.unresolvableReference

/-- Review-thread node as returned per page by the GraphQL query
(gh_pr.py:124-132): opaque id, resolution flag, and the database ids of
its member comments (first 50). -/
structure ThreadNode where
  id : List Char
  isResolved : Bool
  comments : List Nat
deriving DecidableEq

/-- One page of the paginated reviewThreads query (gh_pr.py:134-137):
up to 100 thread nodes plus the has-next-page flag.  The end cursor is
modelled by the page index, since the loop only ever threads it through
linearly. -/
structure PageResp where
  threads : List ThreadNode
  hasNextPage : Bool
deriving DecidableEq

/-- Scan of one page's threads (gh_pr.py:153-157): first thread whose
member comment ids contain the target, together with its flag. -/
def findInThreads (cid : Nat) : List ThreadNode → Option (List Char × Bool)
  | [] => none
  | t :: rest =>
    if t.comments.contains cid then some (t.id, t.isResolved)
    else findInThreads cid rest

/-- Fueled embedding of the `while True` pagination loop of
`find_review_thread_id` (gh_pr.py:144-168).  The transport is an
oracle `api : Nat → PageResp` from page index to page.  The result is
`none` when the fuel ran out before the loop decided (the real loop is
still running at that point); otherwise `some (outcome, pages)` where
`outcome` is the found `(thread id, is_resolved)` pair or `none` for
not-found, and `pages` is the number of pages fetched. -/
def findLoop (api : Nat → PageResp) (cid : Nat) :
    Nat → Nat → Option (Option (List Char × Bool) × Nat)
  | 0, _ => none
  | fuel + 1, i =>
    let p := api i
    match findInThreads cid p.threads with
    | some r => some (some r, i + 1)
    | none =>
      if p.hasNextPage then findLoop api cid fuel (i + 1)
      else some (none, i + 1)

/-- Embedding of `find_review_thread_id` (gh_pr.py:112-168): run the
pagination loop from the first page (cursor none, index 0). -/
def find_review_thread_id (api : Nat → PageResp) (cid : Nat) (fuel : Nat) :
    Option (Option (List Char × Bool) × Nat) :=
  findLoop api cid fuel 0

/-- Kind of GraphQL mutation issued by the resolve command
(gh_pr.py:406): resolveReviewThread or unresolveReviewThread. -/
inductive MutationKind where
  | resolveThread
  | unresolveThread
deriving DecidableEq

/-- Outcome reported by the resolve command (gh_pr.py:375-428).
`alreadyResolved` and `alreadyUnresolved` model the yellow
already-in-requested-state messages; `updated` carries the thread id
and flag read from the mutation's own response; the err-constructors
model the printed errors followed by exit 1. -/
inductive ResolveOutcome where
  | alreadyResolved
  | alreadyUnresolved
  | updated (tid : List Char) (isResolved : Bool)
  | errAmbiguousSelector
  | errThreadNotFound
  | errMutationFailed
deriving DecidableEq

/-- Result of the resolve command: outcome, number of thread-search
GraphQL queries issued, and the list of mutations issued (kind and
thread id), in order. -/
structure ResolveResult where
  outcome : ResolveOutcome
  searches : Nat
  mutations : List (MutationKind × List Char)
deriving DecidableEq

/-- Mutation step of `resolve` (gh_pr.py:406-428): pick the mutation by
the unresolve flag, issue it, and report the thread id and flag from
the mutation response (or the update-failed error). -/
def runMutation (tid : List Char) (unresolve : Bool)
    (mutate : MutationKind → List Char → Except Unit (List Char × Bool))
    (searches : Nat) : ResolveResult :=
  let kind := if unresolve then MutationKind.unresolveThread
              else MutationKind.resolveThread
  match mutate kind tid with
  | Except.ok (tid2, res2) =>
    ⟨ResolveOutcome.updated tid2 res2, searches, [(kind, tid)]⟩
  | Except.error _ =>
    ⟨ResolveOutcome.errMutationFailed, searches, [(kind, tid)]⟩

/-- Embedding of the `resolve` command (gh_pr.py:375-428).  The thread
search is the oracle `search` (what `find_review_thread_id` returns for
a comment id: possibly-absent thread id and possibly-absent current
flag), and `mutate` is the GraphQL mutation transport.  Mirrors the
source: mutually-exclusive selector check first (gh_pr.py:387-389),
then in comment-id mode one search, the falsy-thread-id error
(gh_pr.py:394-396), the idempotency short-circuit (gh_pr.py:398-404),
and finally the single mutation. -/
def resolveCmd (cid? : Option Nat) (tid? : Option (List Char)) (unresolve : Bool)
    (search : Nat → Option (List Char) × Option Bool)
    (mutate : MutationKind → List Char → Except Unit (List Char × Bool)) :
    ResolveResult :=
  if (cid?.isNone && tid?.isNone) || (cid?.isSome && tid?.isSome) then
    ⟨ResolveOutcome.errAmbiguousSelector, 0, []⟩
  else
    match cid? with
    | some cid =>
      match search cid with
      | (none, _) => ⟨ResolveOutcome.errThreadNotFound, 1, []⟩
      | (some tid, isRes) =>
        if tid.isEmpty then ⟨ResolveOutcome.errThreadNotFound, 1, []⟩
        else
          match isRes with
          | some r =>
            if r && !unresolve then ⟨ResolveOutcome.alreadyResolved, 1, []⟩
            else if !r && unresolve then ⟨ResolveOutcome.alreadyUnresolved, 1, []⟩
            else runMutation tid unresolve mutate 1
          | none => runMutation tid unresolve mutate 1
    | none =>
      match tid? with
      | some tid => runMutation tid unresolve mutate 0
      | none => ⟨ResolveOutcome.errAmbiguousSelector, 0, []⟩

/-- Inline comment attached to a draft review (gh_pr.py:303). -/
structure DraftComment where
  path : List Char
  line : Nat
  side : List Char
  body : List Char
deriving DecidableEq

/-- Decoded JSON object of a draft review file.  A JSON key that is
absent from the object decodes to `none`, matching the `in` /
`.get(..., default)` accesses of the source (gh_pr.py:321-339). -/
structure ReviewData where
  commit_id : Option (List Char)
  event : Option (List Char)
  body : Option (List Char)
  comments : Option (List DraftComment)
deriving DecidableEq

/-- Field names used in the missing-required-fields error message. -/
def commitIdKey : List Char := ['c', 'o', 'm', 'm', 'i', 't', '_', 'i', 'd']

/-- Field name of the event key. -/
def eventKey : List Char := ['e', 'v', 'e', 'n', 't']

/-- The three admissible event values (gh_pr.py:328). -/
def validEvents : List (List Char) :=
  [['A', 'P', 'P', 'R', 'O', 'V', 'E'],
   ['R', 'E', 'Q', 'U', 'E', 'S', 'T', '_', 'C', 'H', 'A', 'N', 'G', 'E', 'S'],
   ['C', 'O', 'M', 'M', 'E', 'N', 'T']]

/-- Network call issued by `post`: the single `create_review` REST call
with its payload (gh_pr.py:334-340). -/
structure CreateReviewCall where
  pr_number : Nat
  commit_id : List Char
  body : List Char
  event : List Char
  comments : List DraftComment
deriving DecidableEq

/-- Error outcomes of the `post` command; each models a printed red
error followed by `typer.Exit(1)`.  `transportRetrySafe` models the
failure branch (gh_pr.py:347-350) whose output is the posting error
followed by the explicit retry-is-safe note that the review file is
preserved for retry. -/
inductive PostError where
  | fileNotFound
  | invalidJson
  | missingFields (fields : List (List Char))
  | invalidEvent (ev : List Char)
  | transportRetrySafe
deriving DecidableEq

/-- Result of the `post` command: the outcome (review id on success),
the artifact file's content afterwards (`none` when absent or deleted),
and the list of network calls issued, in order. -/
structure PostResult where
  outcome : Except PostError Nat
  fileAfter : Option (List Char)
  calls : List CreateReviewCall

/-- Embedding of the `post` command (gh_pr.py:288-350).  `file` is the
draft artifact's current content (`none` when the file does not exist),
`decode` is the JSON decoder oracle (models `json.loads`, `none` on a
decode error), and `net` is the REST transport oracle for the one
`create_review` call, returning the new review id or a transport fault.
Mirrors the source order: existence check, JSON decode, required-field
check, event check, then the single submission; the file is unlinked
only on submission success (gh_pr.py:344) and is otherwise untouched. -/
def post (pr_number : Nat) (file : Option (List Char))
    (decode : List Char → Option ReviewData)
    (net : CreateReviewCall → Except Unit Nat) : PostResult :=
  match file with
  | none => ⟨Except.error PostError.fileNotFound, none, []⟩
  | some content =>
    match decode content with
    | none => ⟨Except.error PostError.invalidJson, some content, []⟩
    | some rd =>
      let missing :=
        (if rd.commit_id.isNone then [commitIdKey] else []) ++
        (if rd.event.isNone then [eventKey] else [])
      if missing ≠ [] then
        ⟨Except.error (PostError.missingFields missing), some content, []⟩
      else
        match rd.commit_id, rd.event with
        | some cid, some ev =>
          if validEvents.contains ev then
            let call : CreateReviewCall :=
              ⟨pr_number, cid, rd.body.getD [], ev, rd.comments.getD []⟩
            match net call with
            | Except.ok rid => ⟨Except.ok rid, none, [call]⟩
            | Except.error _ =>
              ⟨Except.error PostError.transportRetrySafe, some content, [call]⟩
          else ⟨Except.error (PostError.invalidEvent ev), some content, []⟩
        | none, _ => ⟨Except.error (PostError.missingFields missing), some content, []⟩
        | _, none => ⟨Except.error (PostError.missingFields missing), some content, []⟩

/-! Lemmas about `splitSlash` and `parse_repo`. -/

theorem splitSlash_ne_nil (l : List Char) : splitSlash l ≠ [] := by
  cases l with
  | nil => simp [splitSlash]
  | cons c rest =>
    by_cases h : c = '/'
    · simp [splitSlash, h]
    · cases hs : splitSlash rest with
      | nil => simp [splitSlash, h, hs]
      | cons s ss => simp [splitSlash, h, hs]

theorem length_splitSlash : ∀ l : List Char, (splitSlash l).length = l.count '/' + 1
  | [] => by simp [splitSlash]
  | c :: rest => by
    by_cases h : c = '/'
    · simp [splitSlash, h, length_splitSlash rest, List.count_cons]
    · cases hs : splitSlash rest with
      | nil => exact absurd hs (splitSlash_ne_nil rest)
      | cons s ss =>
        have ih := length_splitSlash rest
        rw [hs] at ih
        simp [splitSlash, h, hs, List.count_cons] at ih ⊢
        omega

theorem splitSlash_no_slash : ∀ l : List Char, '/' ∉ l → splitSlash l = [l]
  | [], _ => rfl
  | c :: rest, h => by
    have hc : c ≠ '/' := by
      rintro rfl
      exact h (List.mem_cons_self _ _)
    have ih := splitSlash_no_slash rest (fun m => h (List.mem_cons_of_mem c m))
    simp [splitSlash, hc, ih]

theorem splitSlash_append :
    ∀ (a : List Char), '/' ∉ a → ∀ b, splitSlash (a ++ '/' :: b) = a :: splitSlash b
  | [], _, b => by simp [splitSlash]
  | c :: a, h, b => by
    have hc : c ≠ '/' := by
      rintro rfl
      exact h (List.mem_cons_self _ _)
    have ih := splitSlash_append a (fun m => h (List.mem_cons_of_mem c m)) b
    simp [splitSlash, hc, ih]

theorem parse_repo_pair (a b : List Char) (ha : '/' ∉ a) (hb : '/' ∉ b) :
    parse_repo (a ++ '/' :: b) = some (a, b) := by
  simp [parse_repo, splitSlash_append a ha b, splitSlash_no_slash b hb]

theorem parse_repo_isSome (s : List Char) :
    (parse_repo s).isSome ↔ s.count '/' = 1 := by
  have hlen := length_splitSlash s
  have hne := splitSlash_ne_nil s
  rcases hs : splitSlash s with _ | ⟨x, _ | ⟨y, _ | ⟨z, t⟩⟩⟩
  · exact absurd hs hne
  · rw [hs] at hlen
    simp only [List.length_cons, List.length_nil] at hlen
    simp [parse_repo, hs]
    omega
  · rw [hs] at hlen
    simp only [List.length_cons, List.length_nil] at hlen
    simp [parse_repo, hs]
    omega
  · rw [hs] at hlen
    simp only [List.length_cons, List.length_nil] at hlen
    simp [parse_repo, hs]
    omega

/-- Claim C6 counterexample: the claim states that an input with an
empty segment such as "/name" (zero-length owner) fails with
InvalidCoordinate, but parse_repo accepts it, returning an empty owner:
the source only checks that the split yields exactly two parts and
never checks the parts for emptiness. -/
theorem c6_counterexample :
    parse_repo ['/', 'n', 'a', 'm', 'e'] = some ([], ['n', 'a', 'm', 'e']) := by
  decide

/-- Claim C6 (amended): parse_repo succeeds exactly when the input
contains exactly one slash separator — the two segments may be empty —
and on a well-formed split a ++ slash ++ b of slash-free halves it
returns the pair (a, b). -/
theorem c6_parse_repo (s a b : List Char) :
    ((parse_repo s).isSome ↔ s.count '/' = 1) ∧
    ('/' ∉ a → '/' ∉ b → parse_repo (a ++ '/' :: b) = some (a, b)) :=
  ⟨parse_repo_isSome s, fun ha hb => parse_repo_pair a b ha hb⟩

/-- Claim C6 witness: the amended theorem instantiated on the concrete
input o-slash-n. -/
theorem c6_parse_repo_witness :
    '/' ∉ (['o'] : List Char) ∧ '/' ∉ (['n'] : List Char) ∧
      parse_repo (['o'] ++ '/' :: ['n']) = some (['o'], ['n']) :=
  ⟨by decide, by decide,
    (c6_parse_repo ['o', '/', 'n'] ['o'] ['n']).2 (by decide) (by decide)⟩

/-! Lemmas about the pagination loop. -/

theorem findLoop_skip (api : Nat → PageResp) (cid : Nat) :
    ∀ (k i fuel : Nat),
      (∀ j, j < k →
        findInThreads cid (api (i + j)).threads = none ∧
          (api (i + j)).hasNextPage = true) →
      findLoop api cid (fuel + k) i = findLoop api cid fuel (i + k)
  | 0, i, fuel, _ => by simp
  | k + 1, i, fuel, h => by
    have h0 := h 0 (Nat.succ_pos k)
    simp only [Nat.add_zero] at h0
    have step : findLoop api cid (fuel + k + 1) i = findLoop api cid (fuel + k) (i + 1) := by
      simp [findLoop, h0.1, h0.2]
    have hshift : ∀ j, j < k →
        findInThreads cid (api (i + 1 + j)).threads = none ∧
          (api (i + 1 + j)).hasNextPage = true := by
      intro j hj
      have hm := h (j + 1) (by omega)
      have e : i + (j + 1) = i + 1 + j := by omega
      rw [e] at hm
      exact hm
    have ih := findLoop_skip api cid k (i + 1) fuel hshift
    have e2 : fuel + (k + 1) = fuel + k + 1 := rfl
    rw [e2, step, ih]
    congr 1
    omega

theorem findLoop_hit (api : Nat → PageResp) (cid : Nat) (fuel i : Nat)
    (r : List Char × Bool) (h : findInThreads cid (api i).threads = some r) :
    findLoop api cid (fuel + 1) i = some (some r, i + 1) := by
  simp [findLoop, h]

theorem findLoop_last (api : Nat → PageResp) (cid : Nat) (fuel i : Nat)
    (h1 : findInThreads cid (api i).threads = none)
    (h2 : (api i).hasNextPage = false) :
    findLoop api cid (fuel + 1) i = some (none, i + 1) := by
  simp [findLoop, h1, h2]

/-- Claim C2: the thread search fetches pages in order from the first
page; on the first page (index k) containing a thread with the target
comment id it returns that thread's id and flag, having fetched exactly
k + 1 pages and no more (any extra fuel is unused); when a page has no
match and reports no next page, it returns the absent outcome (not an
error), again having fetched exactly the pages up to it. -/
theorem c2_find_review_thread_id (api : Nat → PageResp) (cid k : Nat)
    (hbefore : ∀ j, j < k →
      findInThreads cid (api j).threads = none ∧ (api j).hasNextPage = true) :
    (∀ r, findInThreads cid (api k).threads = some r →
      ∀ fuel, find_review_thread_id api cid (fuel + k + 1) = some (some r, k + 1)) ∧
    (findInThreads cid (api k).threads = none → (api k).hasNextPage = false →
      ∀ fuel, find_review_thread_id api cid (fuel + k + 1) = some (none, k + 1)) := by
  have hb0 : ∀ j, j < k →
      findInThreads cid (api (0 + j)).threads = none ∧
        (api (0 + j)).hasNextPage = true := by
    intro j hj
    simpa using hbefore j hj
  constructor
  · intro r hr fuel
    have hskip := findLoop_skip api cid k 0 (fuel + 1) hb0
    unfold find_review_thread_id
    have e : fuel + k + 1 = fuel + 1 + k := by omega
    rw [e, hskip]
    simpa using findLoop_hit api cid fuel k r hr
  · intro hnone hlast fuel
    have hskip := findLoop_skip api cid k 0 (fuel + 1) hb0
    unfold find_review_thread_id
    have e : fuel + k + 1 = fuel + 1 + k := by omega
    rw [e, hskip]
    simpa using findLoop_last api cid fuel k hnone hlast

/-- Three-page example for the thread search: pages one and two lack
the target comment id 42 and report a next page; page three holds it in
its second thread. -/
def examplePages : List PageResp :=
  [⟨[⟨['t', '1'], false, [1, 2]⟩], true⟩,
   ⟨[⟨['t', '2'], true, [3]⟩], true⟩,
   ⟨[⟨['t', '3'], false, [5]⟩, ⟨['t', '4'], true, [42, 7]⟩], false⟩]

/-- Page oracle built from the example pages. -/
def exampleApi (i : Nat) : PageResp := examplePages.getD i ⟨[], false⟩

/-- Claim C2 witness: the spec's own three-page scenario — target on
page three, found after exactly three pages. -/
theorem c2_find_review_thread_id_witness :
    (∀ j, j < 2 →
      findInThreads 42 (exampleApi j).threads = none ∧
        (exampleApi j).hasNextPage = true) ∧
    findInThreads 42 (exampleApi 2).threads = some (['t', '4'], true) ∧
    find_review_thread_id exampleApi 42 (0 + 2 + 1) = some (some (['t', '4'], true), 2 + 1) :=
  ⟨by decide, by decide,
    (c2_find_review_thread_id exampleApi 42 2 (by decide)).1 (['t', '4'], true) (by decide) 0⟩

/-- Page stream on which every page reports has_next_page true and
never contains any target: models an API that never reports a last
page. -/
def endlessApi : Nat → PageResp := fun _ => ⟨[], true⟩

theorem endless_findLoop_none :
    ∀ (fuel i : Nat), findLoop endlessApi 7 fuel i = none
  | 0, _ => rfl
  | fuel + 1, i => by
    simp [findLoop, endlessApi, findInThreads, endless_findLoop_none fuel (i + 1)]

/-- Claim C5 counterexample: the claim states the pagination loop
aborts after a fixed maximum number of pages (for example 1000) with a
PaginationExhausted fault.  On a stream whose pages always report
has_next_page, after enough fuel to fetch 1001 pages the loop has still
produced no outcome whatsoever — it has fetched past any 1000-page
bound without aborting: the source is a bare while-True with no safety
bound and no PaginationExhausted path. -/
theorem c5_counterexample :
    find_review_thread_id endlessApi 7 1001 = none :=
  endless_findLoop_none 1001 0

/-- Claim C5 (amended): the pagination loop imposes no page bound and
has no PaginationExhausted abort: on any page stream in which every
page lacks the target and reports has_next_page, the loop never
terminates — for every amount of fuel the fueled embedding is still
running, from every start index. -/
theorem c5_no_bound (api : Nat → PageResp) (cid : Nat)
    (h : ∀ i, findInThreads cid (api i).threads = none ∧ (api i).hasNextPage = true) :
    ∀ fuel i, findLoop api cid fuel i = none := by
  intro fuel
  induction fuel with
  | zero => intro i; rfl
  | succ n ih => intro i; simp [findLoop, (h i).1, (h i).2, ih (i + 1)]

/-- Claim C5 witness: the amended theorem instantiated on the endless
page stream. -/
theorem c5_no_bound_witness :
    (∀ i, findInThreads 7 (endlessApi i).threads = none ∧
      (endlessApi i).hasNextPage = true) ∧
    findLoop endlessApi 7 5 0 = none :=
  ⟨fun _ => ⟨rfl, rfl⟩, c5_no_bound endlessApi 7 (fun _ => ⟨rfl, rfl⟩) 5 0⟩

/-! Lemmas about the resolve command. -/

theorem runMutation_mutations (tid : List Char) (unresolve : Bool)
    (mutate : MutationKind → List Char → Except Unit (List Char × Bool)) (s : Nat) :
    (runMutation tid unresolve mutate s).mutations =
      [((if unresolve then MutationKind.unresolveThread else MutationKind.resolveThread), tid)] := by
  simp only [runMutation]
  cases hm : mutate (if unresolve then MutationKind.unresolveThread
    else MutationKind.resolveThread) tid with
  | ok p => cases p; simp [hm]
  | error e => simp [hm]

theorem runMutation_ok (tid : List Char) (unresolve : Bool)
    (mutate : MutationKind → List Char → Except Unit (List Char × Bool)) (s : Nat)
    (tid2 : List Char) (res2 : Bool)
    (hm : mutate (if unresolve then MutationKind.unresolveThread
      else MutationKind.resolveThread) tid = Except.ok (tid2, res2)) :
    runMutation tid unresolve mutate s =
      ⟨ResolveOutcome.updated tid2 res2, s,
        [((if unresolve then MutationKind.unresolveThread
          else MutationKind.resolveThread), tid)]⟩ := by
  simp only [runMutation, hm]

/-- Claim C3: in comment-id mode, when the thread search yields a
thread id and its current flag r, then: if r already equals the target
state (target_resolved is the negation of the unresolve flag), the
command issues zero mutations and reports already-in-requested-state;
if it differs, the command issues exactly one mutation — unresolve-kind
when the target is unresolved, resolve-kind when it is resolved — and
on mutation success reports the thread id and flag taken from the
mutation's own response. -/
theorem c3_resolveCmd (cid : Nat) (unresolve : Bool) (tid : List Char) (r : Bool)
    (search : Nat → Option (List Char) × Option Bool)
    (mutate : MutationKind → List Char → Except Unit (List Char × Bool))
    (hsearch : search cid = (some tid, some r))
    (hne : tid.isEmpty = false) :
    (r = !unresolve →
      resolveCmd (some cid) none unresolve search mutate =
        ⟨if unresolve then ResolveOutcome.alreadyUnresolved
          else ResolveOutcome.alreadyResolved, 1, []⟩) ∧
    (r = unresolve →
      (resolveCmd (some cid) none unresolve search mutate).mutations =
        [((if unresolve then MutationKind.unresolveThread
          else MutationKind.resolveThread), tid)] ∧
      ∀ tid2 res2,
        mutate (if unresolve then MutationKind.unresolveThread
          else MutationKind.resolveThread) tid = Except.ok (tid2, res2) →
        (resolveCmd (some cid) none unresolve search mutate).outcome =
          ResolveOutcome.updated tid2 res2) := by
  constructor
  · intro hr
    cases unresolve <;> simp_all [resolveCmd, hsearch, hne]
  · intro hr
    have hres : resolveCmd (some cid) none unresolve search mutate =
        runMutation tid unresolve mutate 1 := by
      cases unresolve <;> simp_all [resolveCmd, hsearch, hne]
    constructor
    · rw [hres]
      exact runMutation_mutations tid unresolve mutate 1
    · intro tid2 res2 hm
      rw [hres, runMutation_ok tid unresolve mutate 1 tid2 res2 hm]

/-- Fixed search oracle used in the resolve witnesses: every comment id
maps to thread T, currently resolved. -/
def searchEx : Nat → Option (List Char) × Option Bool :=
  fun _ => (some ['T'], some true)

/-- Fixed mutation oracle used in the resolve witnesses: every mutation
succeeds, reporting thread T now unresolved. -/
def mutateEx : MutationKind → List Char → Except Unit (List Char × Bool) :=
  fun _ _ => Except.ok (['T'], false)

/-- Claim C3 witness: on an already-resolved thread, a resolve request
issues no mutation; an unresolve request on the same thread issues
exactly one unresolve mutation and reports the state from its
response. -/
theorem c3_resolveCmd_witness :
    searchEx 1 = (some ['T'], some true) ∧
    resolveCmd (some 1) none false searchEx mutateEx =
      ⟨ResolveOutcome.alreadyResolved, 1, []⟩ ∧
    (resolveCmd (some 1) none true searchEx mutateEx).mutations =
      [(MutationKind.unresolveThread, ['T'])] ∧
    (resolveCmd (some 1) none true searchEx mutateEx).outcome =
      ResolveOutcome.updated ['T'] false := by
  refine ⟨rfl, ?_, ?_, ?_⟩
  · have h := (c3_resolveCmd 1 false ['T'] true searchEx mutateEx rfl rfl).1 rfl
    simpa using h
  · have h := ((c3_resolveCmd 1 true ['T'] true searchEx mutateEx rfl rfl).2 rfl).1
    simpa using h
  · exact ((c3_resolveCmd 1 true ['T'] true searchEx mutateEx rfl rfl).2 rfl).2
      ['T'] false rfl

/-- Claim C7: supplying both a comment id and a thread id, or neither,
is rejected with the ambiguous-selector error before any network
activity: zero thread-search queries and zero mutations are issued. -/
theorem c7_resolveCmd_ambiguous (unresolve : Bool)
    (search : Nat → Option (List Char) × Option Bool)
    (mutate : MutationKind → List Char → Except Unit (List Char × Bool)) :
    (∀ cid tid, resolveCmd (some cid) (some tid) unresolve search mutate =
      ⟨ResolveOutcome.errAmbiguousSelector, 0, []⟩) ∧
    resolveCmd none none unresolve search mutate =
      ⟨ResolveOutcome.errAmbiguousSelector, 0, []⟩ := by
  constructor
  · intro cid tid
    simp [resolveCmd]
  · simp [resolveCmd]

/-! Lemmas about the post command. -/

/-- Claim C1: with an existing draft that decodes to a valid review
(commit_id and event present, event admissible), post issues the single
create-review call and: on transport success it returns the review id
and deletes the artifact; on transport failure it reports the
retry-is-safe error and the artifact content afterwards is exactly the
content it had before, byte for byte. -/
theorem c1_post (pr : Nat) (content : List Char)
    (decode : List Char → Option ReviewData) (net : CreateReviewCall → Except Unit Nat)
    (rd : ReviewData) (cidv ev : List Char)
    (hdec : decode content = some rd)
    (hcid : rd.commit_id = some cidv) (hev : rd.event = some ev)
    (hvalid : validEvents.contains ev = true) :
    (∀ rid, net ⟨pr, cidv, rd.body.getD [], ev, rd.comments.getD []⟩ = Except.ok rid →
      post pr (some content) decode net =
        ⟨Except.ok rid, none, [⟨pr, cidv, rd.body.getD [], ev, rd.comments.getD []⟩]⟩) ∧
    (∀ e, net ⟨pr, cidv, rd.body.getD [], ev, rd.comments.getD []⟩ = Except.error e →
      post pr (some content) decode net =
        ⟨Except.error PostError.transportRetrySafe, some content,
          [⟨pr, cidv, rd.body.getD [], ev, rd.comments.getD []⟩]⟩) := by
  simp only [List.contains_eq_any_beq, List.any_eq_true, beq_iff_eq] at hvalid
  obtain ⟨ev2, hev2, rfl⟩ := hvalid
  constructor <;> intro x hx <;> simp [post, hdec, hcid, hev, hev2, hx]

/-- Claim C4: a decoded draft missing commit_id or event, or whose
event is not one of the three admissible values, fails with the
validation error naming exactly the missing or invalid field(s), with
zero network calls issued and the artifact left in place unchanged. -/
theorem c4_post (pr : Nat) (content : List Char)
    (decode : List Char → Option ReviewData) (net : CreateReviewCall → Except Unit Nat)
    (rd : ReviewData) (hdec : decode content = some rd) :
    (rd.commit_id = none → rd.event = none →
      post pr (some content) decode net =
        ⟨Except.error (PostError.missingFields [commitIdKey, eventKey]), some content, []⟩) ∧
    (rd.commit_id = none → (∀ ev, rd.event = some ev →
      post pr (some content) decode net =
        ⟨Except.error (PostError.missingFields [commitIdKey]), some content, []⟩)) ∧
    ((∀ cidv, rd.commit_id = some cidv → rd.event = none →
      post pr (some content) decode net =
        ⟨Except.error (PostError.missingFields [eventKey]), some content, []⟩)) ∧
    (∀ cidv ev, rd.commit_id = some cidv → rd.event = some ev →
      validEvents.contains ev = false →
      post pr (some content) decode net =
        ⟨Except.error (PostError.invalidEvent ev), some content, []⟩) := by
  refine ⟨?_, ?_, ?_, ?_⟩
  · intro h1 h2
    simp [post, hdec, h1, h2]
  · intro h1 ev h2
    simp [post, hdec, h1, h2]
  · intro cidv h1 h2
    simp [post, hdec, h1, h2]
  · intro cidv ev h1 h2 hbad
    simp only [List.contains_eq_any_beq, List.any_eq_false, beq_iff_eq] at hbad
    have hb : ev ∉ validEvents := fun hmem => hbad ev hmem rfl
    simp [post, hdec, h1, h2, hb]

/-- Claim C9: a draft file whose content does not decode as JSON fails
with the invalid-JSON error, issues zero network calls, and the
artifact stays on disk with its content unchanged. -/
theorem c9_post (pr : Nat) (content : List Char)
    (decode : List Char → Option ReviewData) (net : CreateReviewCall → Except Unit Nat)
    (hdec : decode content = none) :
    post pr (some content) decode net =
      ⟨Except.error PostError.invalidJson, some content, []⟩ := by
  simp [post, hdec]

/-- Valid decoded draft used in the post witnesses. -/
def rdEx : ReviewData :=
  ⟨some ['a'], some ['C', 'O', 'M', 'M', 'E', 'N', 'T'], none, none⟩

/-- Decoder oracle returning the valid draft. -/
def decodeEx : List Char → Option ReviewData := fun _ => some rdEx

/-- Transport oracle that always succeeds with review id 99. -/
def netOkEx : CreateReviewCall → Except Unit Nat := fun _ => Except.ok 99

/-- Transport oracle that always fails. -/
def netFailEx : CreateReviewCall → Except Unit Nat := fun _ => Except.error ()

/-- Claim C1 witness: the valid draft submitted over the succeeding
transport deletes the artifact and returns review id 99; over the
failing transport the artifact content is preserved and the
retry-is-safe error is reported. -/
theorem c1_post_witness :
    decodeEx ['x'] = some rdEx ∧
    post 5 (some ['x']) decodeEx netOkEx =
      ⟨Except.ok 99, none, [⟨5, ['a'], [], ['C', 'O', 'M', 'M', 'E', 'N', 'T'], []⟩]⟩ ∧
    post 5 (some ['x']) decodeEx netFailEx =
      ⟨Except.error PostError.transportRetrySafe, some ['x'],
        [⟨5, ['a'], [], ['C', 'O', 'M', 'M', 'E', 'N', 'T'], []⟩]⟩ := by
  refine ⟨rfl, ?_, ?_⟩
  · exact (c1_post 5 ['x'] decodeEx netOkEx rdEx ['a']
      ['C', 'O', 'M', 'M', 'E', 'N', 'T'] rfl rfl rfl (by decide)).1 99 rfl
  · exact (c1_post 5 ['x'] decodeEx netFailEx rdEx ['a']
      ['C', 'O', 'M', 'M', 'E', 'N', 'T'] rfl rfl rfl (by decide)).2 () rfl

/-- Draft with an invalid event value, used in the C4 witness. -/
def rdInvEx : ReviewData :=
  ⟨some ['a'], some ['I', 'N', 'V', 'A', 'L', 'I', 'D'], none, none⟩

/-- Decoder oracle returning the invalid-event draft. -/
def decodeInvEx : List Char → Option ReviewData := fun _ => some rdInvEx

/-- Claim C4 witness: the INVALID event value from the spec's test
fails validation with zero network calls and the artifact intact. -/
theorem c4_post_witness :
    decodeInvEx ['x'] = some rdInvEx ∧
    validEvents.contains ['I', 'N', 'V', 'A', 'L', 'I', 'D'] = false ∧
    post 5 (some ['x']) decodeInvEx netOkEx =
      ⟨Except.error (PostError.invalidEvent ['I', 'N', 'V', 'A', 'L', 'I', 'D']),
        some ['x'], []⟩ :=
  ⟨rfl, by decide,
    (c4_post 5 ['x'] decodeInvEx netOkEx rdInvEx rfl).2.2.2 ['a']
      ['I', 'N', 'V', 'A', 'L', 'I', 'D'] rfl rfl (by decide)⟩

/-- Decoder oracle for content that is not valid JSON. -/
def decodeNoneEx : List Char → Option ReviewData := fun _ => none

/-- Claim C9 witness: an undecodable draft is rejected with no network
calls and the artifact content preserved. -/
theorem c9_post_witness :
    decodeNoneEx ['x'] = none ∧
    post 5 (some ['x']) decodeNoneEx netOkEx =
      ⟨Except.error PostError.invalidJson, some ['x'], []⟩ :=
  ⟨rfl, c9_post 5 ['x'] decodeNoneEx netOkEx rfl⟩

/-! Lemmas about pull-number extraction from URLs. -/

theorem afterPulls_append :
    ∀ (pre : List (List Char)), pullsSeg ∉ pre → ∀ rest,
      afterPulls (pre ++ pullsSeg :: rest) = rest.head?
  | [], _, rest => by simp [afterPulls]
  | p :: ps, h, rest => by
    have hp : p ≠ pullsSeg := by
      rintro rfl
      exact h (List.mem_cons_self _ _)
    simp [afterPulls, hp,
      afterPulls_append ps (fun m => h (List.mem_cons_of_mem p m)) rest]

theorem afterPulls_none :
    ∀ (parts : List (List Char)), pullsSeg ∉ parts → afterPulls parts = none
  | [], _ => rfl
  | p :: ps, h => by
    have hp : p ≠ pullsSeg := by
      rintro rfl
      exact h (List.mem_cons_self _ _)
    simp [afterPulls, hp,
      afterPulls_none ps (fun m => h (List.mem_cons_of_mem p m))]

theorem afterPulls_mem :
    ∀ (parts : List (List Char)) (x : List Char),
      afterPulls parts = some x → x ∈ parts
  | [], x, h => by simp [afterPulls] at h
  | p :: ps, x, h => by
    by_cases hp : p = pullsSeg
    · subst hp
      simp only [afterPulls, if_pos rfl] at h
      cases ps with
      | nil => exact absurd h (by simp)
      | cons q qs =>
        rw [List.head?_cons] at h
        injection h with h
        subst h
        exact List.mem_cons_of_mem _ (List.mem_cons_self _ _)
    · simp only [afterPulls, if_neg hp] at h
      exact List.mem_cons_of_mem _ (afterPulls_mem ps x h)

theorem find?_append_first_none (p : List Char → Bool) :
    ∀ (xs ys : List (List Char)), (∀ x ∈ xs, p x = false) →
      (xs ++ ys).find? p = ys.find? p
  | [], _, _ => rfl
  | x :: xs, ys, h => by
    have hx : p x = false := h x (List.mem_cons_self _ _)
    rw [List.cons_append, List.find?_cons_of_neg _ (by simp [hx])]
    exact find?_append_first_none p xs ys (fun y m => h y (List.mem_cons_of_mem x m))

theorem lastDigitSeg_split (pre2 : List (List Char)) (d : List Char)
    (post2 : List (List Char)) (hd : isdigit d = true)
    (hpost : ∀ q ∈ post2, isdigit q = false) :
    lastDigitSeg (pre2 ++ d :: post2) = some d := by
  unfold lastDigitSeg
  rw [List.reverse_append, List.reverse_cons, List.append_assoc]
  rw [find?_append_first_none _ post2.reverse _
    (fun q m => hpost q (List.mem_reverse.mp m))]
  rw [List.cons_append, List.find?_cons_of_pos _ (by simp [hd])]

theorem lastDigitSeg_none (parts : List (List Char))
    (h : ∀ p ∈ parts, isdigit p = false) :
    lastDigitSeg parts = none := by
  unfold lastDigitSeg
  rw [List.find?_eq_none]
  intro x hx
  simp [h x (List.mem_reverse.mp hx)]

theorem extract_some (u : List Char) (hu : u.isEmpty = false) :
    extract_pull_number_from_url (some u) = extractFromParts (urlParts u) := by
  simp [extract_pull_number_from_url, hu]

theorem extractFromParts_pulls_digit (pre : List (List Char)) (d : List Char)
    (rest : List (List Char)) (hfirst : pullsSeg ∉ pre) (hd : isdigit d = true) :
    extractFromParts (pre ++ pullsSeg :: d :: rest) = some (strToNat d) := by
  unfold extractFromParts
  rw [afterPulls_append pre hfirst (d :: rest)]
  simp [hd]

theorem extractFromParts_no_pulls (parts : List (List Char))
    (hap : afterPulls parts = none) :
    extractFromParts parts =
      match lastDigitSeg parts with
      | some p => some (strToNat p)
      | none => none := by
  unfold extractFromParts
  rw [hap]

theorem extractFromParts_nondigit_next (parts : List (List Char)) (x : List Char)
    (hap : afterPulls parts = some x) (hx : isdigit x = false) :
    extractFromParts parts =
      match lastDigitSeg parts with
      | some p => some (strToNat p)
      | none => none := by
  unfold extractFromParts
  rw [hap]
  simp [hx]

/-- Claim C8: the locator prefers a nonempty pull_request_url over
pull_request_review_url; on the effective URL's nonempty path segments,
when a first pulls segment is followed by a numeric segment that number
is returned; with no pulls segment the last purely-numeric segment is
returned; and when neither URL is present, or no numeric segment
exists, it fails with the unresolvable-reference error. -/
theorem c8_get_pull_number (c : ReviewComment) :
    (∀ u1, c.pull_request_url = some u1 → u1.isEmpty = false →
      pyOrStr c.pull_request_url c.pull_request_review_url = some u1) ∧
    (c.pull_request_url = none → c.pull_request_review_url = none →
      get_pull_number_from_comment c = Except.error CliError.unresolvableReference) ∧
    (∀ u, pyOrStr c.pull_request_url c.pull_request_review_url = some u →
      u.isEmpty = false →
      ((∀ pre d rest, urlParts u = pre ++ pullsSeg :: d :: rest → pullsSeg ∉ pre →
          isdigit d = true →
          get_pull_number_from_comment c = Except.ok (strToNat d)) ∧
       (pullsSeg ∉ urlParts u →
         ∀ pre2 d post2, urlParts u = pre2 ++ d :: post2 → isdigit d = true →
           (∀ q ∈ post2, isdigit q = false) →
           get_pull_number_from_comment c = Except.ok (strToNat d)) ∧
       ((∀ p ∈ urlParts u, isdigit p = false) →
         get_pull_number_from_comment c = Except.error CliError.unresolvableReference))) := by
  refine ⟨?_, ?_, ?_⟩
  · intro u1 h1 hne
    simp [pyOrStr, h1, hne]
  · intro h1 h2
    simp [get_pull_number_from_comment, pyOrStr, h1, h2, extract_pull_number_from_url]
  · intro u hu hne
    refine ⟨?_, ?_, ?_⟩
    · intro pre d rest hsplit hfirst hd
      have he : extract_pull_number_from_url (some u) = some (strToNat d) := by
        rw [extract_some u hne, hsplit, extractFromParts_pulls_digit pre d rest hfirst hd]
      simp [get_pull_number_from_comment, hu, he]
    · intro hnp pre2 d post2 hsplit hd hpost
      have he : extract_pull_number_from_url (some u) = some (strToNat d) := by
        rw [extract_some u hne,
          extractFromParts_no_pulls _ (afterPulls_none _ hnp), hsplit,
          lastDigitSeg_split pre2 d post2 hd hpost]
      simp [get_pull_number_from_comment, hu, he]
    · intro hall
      have hld : lastDigitSeg (urlParts u) = none := lastDigitSeg_none _ hall
      have he : extract_pull_number_from_url (some u) = none := by
        rw [extract_some u hne]
        cases hap : afterPulls (urlParts u) with
        | none => rw [extractFromParts_no_pulls _ hap, hld]
        | some x =>
          have hx : isdigit x = false := hall x (afterPulls_mem _ x hap)
          rw [extractFromParts_nondigit_next _ x hap hx, hld]
      simp [get_pull_number_from_comment, hu, he]

/-- Example comment whose pull_request_url is an API URL ending in
pulls slash 42. -/
def cEx : ReviewComment :=
  ⟨some ['h', 't', 't', 'p', ':', '/', '/', 'h', '/', 'p', 'u', 'l', 'l', 's', '/', '4', '2'],
    none⟩

/-- Claim C8 witness: the spec's pulls-42 example resolves to pull
number 42. -/
theorem c8_get_pull_number_witness :
    pyOrStr cEx.pull_request_url cEx.pull_request_review_url =
      some ['h', 't', 't', 'p', ':', '/', '/', 'h', '/', 'p', 'u', 'l', 'l', 's', '/', '4', '2'] ∧
    urlParts ['h', 't', 't', 'p', ':', '/', '/', 'h', '/', 'p', 'u', 'l', 'l', 's', '/', '4', '2'] =
      [] ++ pullsSeg :: ['4', '2'] :: [] ∧
    get_pull_number_from_comment cEx = Except.ok 42 :=
  ⟨by decide, by decide,
    ((c8_get_pull_number cEx).2.2
        ['h', 't', 't', 'p', ':', '/', '/', 'h', '/', 'p', 'u', 'l', 'l', 's', '/', '4', '2']
        (by decide) (by decide)).1 [] ['4', '2'] [] (by decide) (by decide) (by decide)⟩

/-- Claim C10: the extraction inspects only the first pulls segment;
when the segment right after it is absent or not purely numeric, it
falls back to the last purely-numeric segment anywhere in the path, and
it returns the absent outcome only when no numeric segment exists at
all. -/
theorem c10_extract_pull_number (u : List Char) (pre rest : List (List Char))
    (hu : u.isEmpty = false)
    (hsplit : urlParts u = pre ++ pullsSeg :: rest)
    (hfirst : pullsSeg ∉ pre)
    (hnext : ∀ x, rest.head? = some x → isdigit x = false) :
    (∀ pre2 d post2, urlParts u = pre2 ++ d :: post2 → isdigit d = true →
      (∀ q ∈ post2, isdigit q = false) →
      extract_pull_number_from_url (some u) = some (strToNat d)) ∧
    ((∀ p ∈ urlParts u, isdigit p = false) →
      extract_pull_number_from_url (some u) = none) := by
  have hap : afterPulls (urlParts u) = rest.head? := by
    rw [hsplit]
    exact afterPulls_append pre hfirst rest
  have hfb : extractFromParts (urlParts u) =
      match lastDigitSeg (urlParts u) with
      | some p => some (strToNat p)
      | none => none := by
    cases hh : rest.head? with
    | none => exact extractFromParts_no_pulls _ (hap.trans hh)
    | some x => exact extractFromParts_nondigit_next _ x (hap.trans hh) (hnext x hh)
  constructor
  · intro pre2 d post2 hsplit2 hd hpost
    rw [extract_some u hu, hfb, hsplit2, lastDigitSeg_split pre2 d post2 hd hpost]
  · intro hall
    rw [extract_some u hu, hfb, lastDigitSeg_none _ hall]

/-- URL whose path is pulls slash abc slash 77: the segment after pulls
is not numeric. -/
def urlAbcEx : List Char :=
  ['h', 't', 't', 'p', ':', '/', '/', 'h', '/', 'p', 'u', 'l', 'l', 's', '/',
   'a', 'b', 'c', '/', '7', '7']

/-- Claim C10 witness: with a non-numeric segment after pulls, the
extraction falls back to the trailing 77. -/
theorem c10_extract_pull_number_witness :
    urlParts urlAbcEx = [] ++ pullsSeg :: [['a', 'b', 'c'], ['7', '7']] ∧
    isdigit ['a', 'b', 'c'] = false ∧
    extract_pull_number_from_url (some urlAbcEx) = some 77 :=
  ⟨by decide, by decide,
    (c10_extract_pull_number urlAbcEx [] [['a', 'b', 'c'], ['7', '7']]
        (by decide) (by decide) (by decide)
        (fun x hx => by
          simp only [List.head?_cons, Option.some.injEq] at hx
          subst hx
          decide)).1
      [pullsSeg, ['a', 'b', 'c']] ['7', '7'] [] (by decide) (by decide) (by decide)⟩

end GhPr
